import Mathlib

/-!
Verification development for the `autogen_research` package: a shallow
embedding, in Lean, of the team-orchestration core (agent selection,
conversation truncation, token and cost accounting, termination policy and
the calculator tool), with theorems settling the frozen specification
claims against it.

Conventions of the embedding:

* Token counting is backed by the external `tiktoken` library in the source
  (`TokenCounter.count_tokens`); every definition that needs it takes an
  abstract counting function `count_tokens : String → Nat` as a parameter,
  so each theorem quantifies over all possible tokenizers.
* Python dictionaries `{"role": ..., "content": ...}` become the
  `ChatMessage` structure; in the orchestrator both fields are always set.
* Python `str.lower()` becomes an ASCII lowering (`lowerStr`); all keywords
  of the source are ASCII, so the keyword tests agree.
* Python substring tests `w in s` become `strContains s w`.
-/

namespace AutogenResearch

/-- Bool test that `w` is a leading segment of `s` (`s.startswith(w)`). -/
def hasPrefixChars : List Char → List Char → Bool
  | _, [] => true
  | [], _ :: _ => false
  | a :: as, b :: bs => a == b && hasPrefixChars as bs

/-- Bool test that `w` occurs contiguously inside `s`: the Python
substring test `w in s`. -/
def containsChars : List Char → List Char → Bool
  | [], w => w.isEmpty
  | a :: rest, w => hasPrefixChars (a :: rest) w || containsChars rest w

/-- Python `w in s` on strings. -/
def strContains (s w : String) : Bool := containsChars s.data w.data

/-- Python `s.lower()` (ASCII range; all keywords of the source are ASCII). -/
def lowerStr (s : String) : String := ⟨s.data.map Char.toLower⟩

/-! ## Agent selection (`ResearchTeam.select_agents_for_task`) -/

/-- The four role-specialized agents owned by `ResearchTeam`. -/
inductive Agent where
  | researcher
  | analyst
  | writer
  | critic
deriving DecidableEq

/-- The analysis-indicating keywords of `select_agents_for_task`. -/
def analysisKeywords : List String :=
  ["analyze", "analysis", "trend", "pattern", "data", "statistics", "compare"]

/-- The writing-indicating keywords of `select_agents_for_task`. -/
def writingKeywords : List String :=
  ["write", "explain", "summarize", "document", "report"]

/-- `ResearchTeam.select_agents_for_task`: researcher always first, analyst
when an analysis keyword occurs, writer when a writing keyword occurs or,
failing that, when the lowered text does not contain `"write"`, critic
always last. -/
def select_agents_for_task (task : String) : List Agent :=
  let task_lower := lowerStr task
  [Agent.researcher]
    ++ (if analysisKeywords.any (fun w => strContains task_lower w)
        then [Agent.analyst] else [])
    ++ (if writingKeywords.any (fun w => strContains task_lower w)
        then [Agent.writer]
        else if strContains task_lower "write" then [] else [Agent.writer])
    ++ [Agent.critic]

/-- Since `"write"` is itself the first writing keyword, a text containing
`"write"` always matches the positive keyword test. -/
theorem writing_any_of_contains_write (tl : String)
    (h : strContains tl "write" = true) :
    writingKeywords.any (fun w => strContains tl w) = true := by
  simp [writingKeywords, List.any, h]

/-- The writer is included on every task text. -/
theorem writer_always_selected (task : String) :
    Agent.writer ∈ select_agents_for_task task := by
  unfold select_agents_for_task
  by_cases hW : writingKeywords.any (fun w => strContains (lowerStr task) w) = true
  · simp [hW]
  · have hw : strContains (lowerStr task) "write" = false := by
      by_contra hc
      exact hW (writing_any_of_contains_write _ (by simpa using hc))
    simp [hW, hw]

/-- C2: the selector includes the writer-role agent if and only if the task
text, lowered, contains a writing-indicating keyword or does not contain the
substring `"write"`; because `"write"` is itself a positive keyword, the
exclusion branch is unreachable and the writer is always included. -/
theorem selector_includes_writer_iff (task : String) :
    Agent.writer ∈ select_agents_for_task task ↔
      (writingKeywords.any (fun w => strContains (lowerStr task) w) = true ∨
        strContains (lowerStr task) "write" = false) := by
  constructor
  · intro _
    by_cases hw : strContains (lowerStr task) "write" = true
    · exact Or.inl (writing_any_of_contains_write _ hw)
    · exact Or.inr (by simpa using hw)
  · intro _
    exact writer_always_selected task

/-- C3: a task text matching no optional keyword selects exactly
researcher, writer, critic in that order; a task text matching an analysis
keyword selects exactly researcher, analyst, writer, critic in that order,
so the analyst sits after the researcher and before writer and critic. -/
theorem selector_fixed_order (task : String) :
    (analysisKeywords.any (fun w => strContains (lowerStr task) w) = false →
      writingKeywords.any (fun w => strContains (lowerStr task) w) = false →
      select_agents_for_task task = [Agent.researcher, Agent.writer, Agent.critic])
    ∧ (analysisKeywords.any (fun w => strContains (lowerStr task) w) = true →
      select_agents_for_task task
        = [Agent.researcher, Agent.analyst, Agent.writer, Agent.critic]) := by
  constructor
  · intro hA hW
    have hw : strContains (lowerStr task) "write" = false := by
      by_contra hc
      have := writing_any_of_contains_write (lowerStr task) (by simpa using hc)
      simp [this] at hW
    simp [select_agents_for_task, hA, hW, hw]
  · intro hA
    by_cases hW : writingKeywords.any (fun w => strContains (lowerStr task) w) = true
    · simp [select_agents_for_task, hA, hW]
    · have hW' : writingKeywords.any (fun w => strContains (lowerStr task) w) = false := by
        simpa using hW
      have hw : strContains (lowerStr task) "write" = false := by
        by_contra hc
        have := writing_any_of_contains_write (lowerStr task) (by simpa using hc)
        simp [this] at hW'
      simp [select_agents_for_task, hA, hW', hw]

/-! ## Conversation messages and history truncation (`utils/tokens.py`) -/

/-- A chat message dictionary with the `"role"` and `"content"` keys the
orchestrator always sets. -/
structure ChatMessage where
  role : String
  content : String
deriving DecidableEq

/-- The per-message cost used by `truncate_conversation_history`: content
tokens plus 4 formatting tokens. -/
def msgCost (count_tokens : String → Nat) (m : ChatMessage) : Nat :=
  count_tokens m.content + 4

/-- Summed `msgCost` over a message list. -/
def costSum (count_tokens : String → Nat) (l : List ChatMessage) : Nat :=
  (l.map (msgCost count_tokens)).sum

/-- The first phase of `truncate_conversation_history`: when `keep_system`
holds and the first message has role `"system"`, set it aside and keep the
rest; otherwise leave the list whole. -/
def splitSystem (keep_system : Bool) (messages : List ChatMessage) :
    Option ChatMessage × List ChatMessage :=
  match keep_system, messages with
  | true, m :: rest =>
      if m.role = "system" then (some m, rest) else (none, m :: rest)
  | _, _ => (none, messages)

/-- The starting token total of the truncation loop: the cost of the
preserved system message, if any. -/
def initTotal (count_tokens : String → Nat) : Option ChatMessage → Nat
  | some m => msgCost count_tokens m
  | none => 0

/-- The truncation loop of `truncate_conversation_history`: the input list
is the history newest-first, the output is the kept messages oldest-first;
a message is kept while adding its cost stays within `max_tokens`, and the
first overflow stops the loop. -/
def takeRecent (count_tokens : String → Nat) (max_tokens : Nat) :
    List ChatMessage → Nat → List ChatMessage
  | [], _ => []
  | m :: rest, total =>
      let t := count_tokens m.content + 4
      if max_tokens < total + t then []
      else takeRecent count_tokens max_tokens rest (total + t) ++ [m]

/-- `truncate_conversation_history`: set aside a leading system message when
`keep_system` asks for it, walk the remaining messages newest to oldest
accumulating cost until the budget would be exceeded, and put the system
message back at the front. -/
def truncate_conversation_history (count_tokens : String → Nat)
    (messages : List ChatMessage) (max_tokens : Nat) (keep_system : Bool) :
    List ChatMessage :=
  let split := splitSystem keep_system messages
  let truncated :=
    takeRecent count_tokens max_tokens split.2.reverse (initTotal count_tokens split.1)
  match split.1 with
  | some m => m :: truncated
  | none => truncated

/-- C4: with `keep_system` set, a list whose first message has role
`"system"` truncates to a list that starts with that very message, whatever
the budget — the system message is never dropped. -/
theorem truncate_keeps_head_system (count_tokens : String → Nat)
    (m : ChatMessage) (rest : List ChatMessage) (max_tokens : Nat)
    (h : m.role = "system") :
    ∃ tl, truncate_conversation_history count_tokens (m :: rest) max_tokens true
      = m :: tl := by
  refine ⟨takeRecent count_tokens max_tokens rest.reverse
    (initTotal count_tokens (some m)), ?_⟩
  simp [truncate_conversation_history, splitSystem, h]

/-- Witness for C4 at a concrete input whose system message alone exceeds
the budget: counting by characters, the system content costs 8 + 4 = 12
tokens against a budget of 3, and the message is still kept in front. -/
theorem truncate_keeps_head_system_witness :
    ∃ tl, truncate_conversation_history String.length
      [⟨"system", "abcdefgh"⟩, ⟨"user", "hi"⟩] 3
      true = ⟨"system", "abcdefgh"⟩ :: tl :=
  truncate_keeps_head_system String.length ⟨"system", "abcdefgh"⟩
    [⟨"user", "hi"⟩] 3 rfl

/-- Unfolding fact for `costSum` on a cons cell. -/
theorem costSum_cons (count_tokens : String → Nat) (m : ChatMessage)
    (l : List ChatMessage) :
    costSum count_tokens (m :: l)
      = (count_tokens m.content + 4) + costSum count_tokens l := by
  simp [costSum, msgCost]

/-- `costSum` ignores the order of the messages. -/
theorem costSum_reverse (count_tokens : String → Nat) (l : List ChatMessage) :
    costSum count_tokens l.reverse = costSum count_tokens l := by
  simp [costSum, List.sum_reverse]

/-- Greedy characterization of the truncation loop: on a newest-first list
`r` it keeps some leading block of `j` messages, reversed back to original
order; the kept block fits the budget unless it is empty, and when anything
is left out the very next message would have pushed the total past the
budget. -/
theorem takeRecent_spec (count_tokens : String → Nat) (max_tokens : Nat) :
    ∀ (r : List ChatMessage) (total : Nat),
      ∃ j, j ≤ r.length ∧
        takeRecent count_tokens max_tokens r total = (r.take j).reverse ∧
        (j = 0 ∨ total + costSum count_tokens (r.take j) ≤ max_tokens) ∧
        (j < r.length → max_tokens < total + costSum count_tokens (r.take (j + 1)))
  | [], total => ⟨0, by simp [takeRecent]⟩
  | m :: r', total => by
      by_cases hover : max_tokens < total + (count_tokens m.content + 4)
      · refine ⟨0, Nat.zero_le _, ?_, Or.inl rfl, fun _ => ?_⟩
        · simp [takeRecent, hover]
        · simp only [List.take_succ_cons, List.take_zero, costSum, msgCost,
            List.map_cons, List.map_nil, List.sum_cons, List.sum_nil]
          omega
      · obtain ⟨j', hj', heq, hbud, hstop⟩ :=
          takeRecent_spec count_tokens max_tokens r'
            (total + (count_tokens m.content + 4))
        refine ⟨j' + 1, by simpa using hj', ?_, Or.inr ?_, fun hlt => ?_⟩
        · simp [takeRecent, hover, heq, List.take_succ_cons]
        · rcases hbud with h0 | hle
          · subst h0
            simp only [List.take_succ_cons, List.take_zero, costSum, msgCost,
              List.map_cons, List.map_nil, List.sum_cons, List.sum_nil]
            omega
          · simp only [List.take_succ_cons, costSum_cons] at hle ⊢
            omega
        · have := hstop (by simpa using hlt)
          simp only [List.take_succ_cons, costSum_cons] at this ⊢
          omega

/-- Unfolding of `truncate_conversation_history` through `splitSystem`:
the result is the preserved system message, as a list, in front of the
output of the truncation loop. -/
theorem truncate_eq (count_tokens : String → Nat) (messages : List ChatMessage)
    (max_tokens : Nat) (keep_system : Bool) :
    truncate_conversation_history count_tokens messages max_tokens keep_system
      = ((splitSystem keep_system messages).1).toList
          ++ takeRecent count_tokens max_tokens
              (splitSystem keep_system messages).2.reverse
              (initTotal count_tokens (splitSystem keep_system messages).1) := by
  unfold truncate_conversation_history
  cases h : (splitSystem keep_system messages).1 with
  | none => simp [h]
  | some m => simp [h]

/-- C5: truncation returns the preserved system message, if any, followed
by a contiguous most-recent suffix of the remaining messages in their
original order; the suffix fits the budget (counting content tokens plus a
fixed overhead of 4 per message, on top of the system cost) unless nothing
could be kept, and whenever a message was dropped, also keeping the next
older one would have exceeded `max_tokens`. -/
theorem truncate_greedy_recent_suffix (count_tokens : String → Nat)
    (messages : List ChatMessage) (max_tokens : Nat) (keep_system : Bool) :
    ∃ k, k ≤ (splitSystem keep_system messages).2.length ∧
      truncate_conversation_history count_tokens messages max_tokens keep_system
        = ((splitSystem keep_system messages).1).toList
            ++ (splitSystem keep_system messages).2.drop k ∧
      (k = (splitSystem keep_system messages).2.length ∨
        initTotal count_tokens (splitSystem keep_system messages).1
          + costSum count_tokens ((splitSystem keep_system messages).2.drop k)
          ≤ max_tokens) ∧
      (0 < k →
        max_tokens < initTotal count_tokens (splitSystem keep_system messages).1
          + costSum count_tokens
              ((splitSystem keep_system messages).2.drop (k - 1))) := by
  obtain ⟨j, hj, heq, hbud, hstop⟩ :=
    takeRecent_spec count_tokens max_tokens
      (splitSystem keep_system messages).2.reverse
      (initTotal count_tokens (splitSystem keep_system messages).1)
  have hjlen : j ≤ (splitSystem keep_system messages).2.length := by simpa using hj
  have htake : ((splitSystem keep_system messages).2.reverse.take j).reverse
      = (splitSystem keep_system messages).2.drop
          ((splitSystem keep_system messages).2.length - j) := by
    rw [List.take_reverse]
    simp
  refine ⟨(splitSystem keep_system messages).2.length - j, Nat.sub_le _ _, ?_, ?_, ?_⟩
  · rw [truncate_eq, heq, htake]
  · rcases hbud with h0 | hle
    · exact Or.inl (by omega)
    · refine Or.inr ?_
      have hcs : costSum count_tokens
          ((splitSystem keep_system messages).2.drop
            ((splitSystem keep_system messages).2.length - j))
          = costSum count_tokens
              ((splitSystem keep_system messages).2.reverse.take j) := by
        rw [← htake, costSum_reverse]
      omega
  · intro hk
    have hjlt : j < (splitSystem keep_system messages).2.reverse.length := by
      simp only [List.length_reverse]
      omega
    have hnext := hstop hjlt
    have hidx : (splitSystem keep_system messages).2.length - (j + 1)
        = (splitSystem keep_system messages).2.length - j - 1 := by omega
    have htake1 : ((splitSystem keep_system messages).2.reverse.take (j + 1)).reverse
        = (splitSystem keep_system messages).2.drop
            ((splitSystem keep_system messages).2.length - j - 1) := by
      rw [List.take_reverse, hidx]
      simp
    have hcs : costSum count_tokens
        ((splitSystem keep_system messages).2.drop
          ((splitSystem keep_system messages).2.length - j - 1))
        = costSum count_tokens
            ((splitSystem keep_system messages).2.reverse.take (j + 1)) := by
      rw [← htake1, costSum_reverse]
    omega

/-- C10: only a system message in position 0 is protected. When the first
message is not a system message, `keep_system` makes no difference at all,
so a system-role message sitting at a later position is ordinary; the
second conjunct drops such a message at position 1 under a budget of 6
while keeping the newer user message. -/
theorem later_system_message_unprotected :
    (∀ (count_tokens : String → Nat) (max_tokens : Nat) (m : ChatMessage)
        (rest : List ChatMessage), m.role ≠ "system" →
        truncate_conversation_history count_tokens (m :: rest) max_tokens true
          = truncate_conversation_history count_tokens (m :: rest) max_tokens false)
    ∧ truncate_conversation_history String.length
        [⟨"user", "aa"⟩, ⟨"system", "ssssss"⟩, ⟨"user", "bb"⟩] 6 true
        = [⟨"user", "bb"⟩] := by
  constructor
  · intro count_tokens max_tokens m rest h
    unfold truncate_conversation_history
    simp [splitSystem, h]
  · decide

/-- Witness for C10 at a concrete input: with character counting and budget
6, protection is requested but the system message is at position 1, so the
result is the same as with no protection at all. -/
theorem later_system_message_unprotected_witness :
    truncate_conversation_history String.length
      [⟨"user", "aa"⟩, ⟨"system", "ssssss"⟩, ⟨"user", "bb"⟩] 6 true
      = truncate_conversation_history String.length
        [⟨"user", "aa"⟩, ⟨"system", "ssssss"⟩, ⟨"user", "bb"⟩] 6 false :=
  later_system_message_unprotected.1 String.length 6 ⟨"user", "aa"⟩
    [⟨"system", "ssssss"⟩, ⟨"user", "bb"⟩] (by decide)

/-! ## Cost estimation (`TokenCounter.estimate_cost`)

Python float prices and arithmetic are modelled exactly over the
rationals; `round(x, 6)` becomes rounding to six decimal places with ties
to the even neighbour, the IEEE behaviour of the Python builtin. -/

/-- The static `MODEL_PRICING` table: per-1000-token input and output
prices in USD, in the insertion order of the source dictionary. -/
def MODEL_PRICING : List (String × ℚ × ℚ) :=
  [("gpt-4", (0.03, 0.06)),
   ("gpt-4-turbo", (0.01, 0.03)),
   ("gpt-4o", (0.005, 0.015)),
   ("gpt-4o-mini", (0.00015, 0.0006)),
   ("gpt-3.5-turbo", (0.0005, 0.0015)),
   ("llama3.2", (0.0, 0.0)),
   ("llama3.2:1b", (0.0, 0.0)),
   ("llama3.2:3b", (0.0, 0.0)),
   ("mistral", (0.0, 0.0)),
   ("codellama", (0.0, 0.0))]

/-- The pricing lookup of `estimate_cost`: the first table key occurring as
a substring of the lowered model name wins; no match means no pricing. -/
def findPricing (model_name : String) : Option (ℚ × ℚ) :=
  (MODEL_PRICING.find? (fun kv => strContains (lowerStr model_name) kv.1)).map
    (fun kv => kv.2)

/-- Rounding to the nearest integer with ties to the even neighbour. -/
def roundHalfEven (x : ℚ) : ℤ :=
  let f := ⌊x⌋
  if x - f < 1 / 2 then f
  else if 1 / 2 < x - f then f + 1
  else if f % 2 = 0 then f else f + 1

/-- Python `round(x, 6)` over the rationals. -/
def round6 (x : ℚ) : ℚ := (roundHalfEven (x * 1000000) : ℚ) / 1000000

/-- `TokenCounter.estimate_cost`: look the model up in `MODEL_PRICING`,
treat a miss as free, otherwise charge per 1000 tokens and round the sum
to six decimals. -/
def estimate_cost (input_tokens output_tokens : Nat) (model_name : String) : ℚ :=
  match findPricing model_name with
  | none => 0
  | some (input_price, output_price) =>
      round6 ((input_tokens : ℚ) / 1000 * input_price
        + (output_tokens : ℚ) / 1000 * output_price)

/-- C9: zero tokens cost nothing on every model, and a model matching no
entry of the pricing table costs nothing for any token counts; in both
cases `estimate_cost` is total and returns 0. -/
theorem estimate_cost_zero_and_unmatched :
    (∀ model_name : String, estimate_cost 0 0 model_name = 0)
    ∧ (∀ (model_name : String) (input_tokens output_tokens : Nat),
        findPricing model_name = none →
        estimate_cost input_tokens output_tokens model_name = 0) := by
  constructor
  · intro model_name
    unfold estimate_cost
    cases h : findPricing model_name with
    | none => rfl
    | some p =>
        obtain ⟨ip, op⟩ := p
        simp [round6, roundHalfEven]
  · intro model_name input_tokens output_tokens h
    unfold estimate_cost
    rw [h]

/-- Witness for C9 at a concrete unmatched model name: no key of the
pricing table occurs in the name, and the cost of 37 input and 455 output
tokens is 0. -/
theorem estimate_cost_unmatched_witness :
    estimate_cost 37 455 "claude-3-opus" = 0 :=
  estimate_cost_zero_and_unmatched.2 "claude-3-opus" 37 455 (by decide)

/-! ## Calculator tool (`tools/calculator.py`)

The tool parses its input string with the CPython parser and walks the
resulting AST in `_safe_eval`; the walk and the envelope logic are embedded
here over an AST type, and the concrete expressions of the claims are
transcribed parses. Numbers are modelled over the rationals. -/

/-- The binary operator kinds a parsed `ast.BinOp` node can carry; the
named ones have entries in `SAFE_OPERATORS`, `otherOp` stands for any
other operator node such as a bitwise one. -/
inductive BinOpKind where
  | add
  | sub
  | mult
  | div
  | floorDiv
  | mod
  | pow
  | otherOp (opName : String)
deriving DecidableEq

/-- The unary operator kinds an `ast.UnaryOp` node can carry. -/
inductive UnOpKind where
  | usub
  | uadd
  | otherUnOp (opName : String)
deriving DecidableEq

/-- Parsed Python expression nodes as `_safe_eval` distinguishes them:
numeric literals, binary and unary operations, calls, bare names, and a
catch-all for every other node kind (attribute access, string constants,
comprehensions, ...), which carries the node kind name. -/
inductive PyExpr where
  | num (n : ℚ)
  | binop (op : BinOpKind) (left right : PyExpr)
  | unaryop (op : UnOpKind) (operand : PyExpr)
  | call (func : PyExpr) (args : List PyExpr)
  | name (id : String)
  | unsupported (kindName : String)

/-- A Python runtime value the walk can produce: a number, or the function
object a bare allow-listed name evaluates to. -/
inductive PyVal where
  | num (q : ℚ)
  | fnObj (id : String)
deriving DecidableEq

/-- The exceptions `_safe_eval` and the operator applications can raise,
all caught by the `calculator` wrapper. -/
inductive CalcErr where
  | divByZero
  | unsupportedOperator (opName : String)
  | unsupportedFunction (funcName : String)
  | unsupportedName (id : String)
  | unsupportedExpr (kindName : String)
  | typeError (text : String)
  | externalError (text : String)
deriving DecidableEq

/-- The names of `SAFE_FUNCTIONS`: the fixed allow-list of functions and
constants. -/
def SAFE_FUNCTION_NAMES : List String :=
  ["abs", "round", "min", "max", "sum", "sqrt", "sin", "cos", "tan",
   "log", "log10", "exp", "pi", "e"]

/-- Modelled from the spec: the allow-listed functions are Python builtins
and `math`-module bindings, and `pi` and `e` are `math`-module float
constants — all external to this repository ("a fixed allow-list of
functions/constants"). Their semantics enter as parameters: `applyFn`
applies an allow-listed function object to evaluated arguments, `piVal`
and `eVal` are the constant values, and `fpow` is float exponentiation for
a non-integral exponent. -/
structure ExternalMath where
  applyFn : String → List PyVal → Except CalcErr PyVal
  piVal : ℚ
  eVal : ℚ
  fpow : ℚ → ℚ → Except CalcErr PyVal

/-- The value `SAFE_FUNCTIONS[id]` holds for an allow-listed name: the
float constant for `pi` and `e`, a function object otherwise. -/
def nameValue (ext : ExternalMath) : String → PyVal
  | "pi" => .num ext.piVal
  | "e" => .num ext.eVal
  | id => .fnObj id

/-- Whether a binary operator kind has an entry in `SAFE_OPERATORS`. -/
def binSupported : BinOpKind → Bool
  | .otherOp _ => false
  | _ => true

/-- The display name of a binary operator node type, for error text. -/
def binOpName : BinOpKind → String
  | .add => "Add"
  | .sub => "Sub"
  | .mult => "Mult"
  | .div => "Div"
  | .floorDiv => "FloorDiv"
  | .mod => "Mod"
  | .pow => "Pow"
  | .otherOp s => s

/-- Whether a unary operator kind has an entry in `SAFE_OPERATORS`. -/
def unSupported : UnOpKind → Bool
  | .otherUnOp _ => false
  | _ => true

/-- The display name of a unary operator node type, for error text. -/
def unOpName : UnOpKind → String
  | .usub => "USub"
  | .uadd => "UAdd"
  | .otherUnOp s => s

/-- Application of a supported binary operator to two values: Python
arithmetic over the rationals, `ZeroDivisionError` on a zero divisor for
`/`, `//`, `%` and for `0` raised to a negative integer power, `TypeError`
when an operand is a function object, and float exponentiation delegated
to `ExternalMath.fpow` for a non-integral exponent. -/
def applyBin (ext : ExternalMath) (op : BinOpKind) :
    PyVal → PyVal → Except CalcErr PyVal
  | .num a, .num b =>
      match op with
      | .add => .ok (.num (a + b))
      | .sub => .ok (.num (a - b))
      | .mult => .ok (.num (a * b))
      | .div => if b = 0 then .error .divByZero else .ok (.num (a / b))
      | .floorDiv => if b = 0 then .error .divByZero else .ok (.num ⌊a / b⌋)
      | .mod => if b = 0 then .error .divByZero else .ok (.num (a - b * ⌊a / b⌋))
      | .pow =>
          if b.den = 1 then
            if a = 0 ∧ b.num < 0 then .error .divByZero
            else .ok (.num (a ^ b.num))
          else ext.fpow a b
      | .otherOp s => .error (.unsupportedOperator s)
  | _, _ => .error (.typeError "unsupported operand type")

/-- Application of a supported unary operator to a value. -/
def applyUn (op : UnOpKind) : PyVal → Except CalcErr PyVal
  | .num a =>
      match op with
      | .usub => .ok (.num (-a))
      | .uadd => .ok (.num a)
      | .otherUnOp s => .error (.unsupportedOperator s)
  | _ => .error (.typeError "bad operand type for unary operator")

/-- The function name `_safe_eval` extracts from a call node: the
identifier when the callee is a bare name, the string `"None"` otherwise
(Python formats the `None` it got into the error message). -/
def callFuncName : PyExpr → String
  | .name id => id
  | _ => "None"

mutual

/-- `_safe_eval`: the recursive walk of a parsed expression. Operator and
function allow-list checks happen before operands and arguments are
evaluated, exactly as in the source. -/
def safeEval (ext : ExternalMath) : PyExpr → Except CalcErr PyVal
  | .num n => .ok (.num n)
  | .binop op left right =>
      if binSupported op then do
        let a ← safeEval ext left
        let b ← safeEval ext right
        applyBin ext op a b
      else .error (.unsupportedOperator (binOpName op))
  | .unaryop op operand =>
      if unSupported op then do
        let a ← safeEval ext operand
        applyUn op a
      else .error (.unsupportedOperator (unOpName op))
  | .call func args =>
      if callFuncName func ∈ SAFE_FUNCTION_NAMES then do
        let vs ← safeEvalArgs ext args
        ext.applyFn (callFuncName func) vs
      else .error (.unsupportedFunction (callFuncName func))
  | .name id =>
      if id ∈ SAFE_FUNCTION_NAMES then .ok (nameValue ext id)
      else .error (.unsupportedName id)
  | .unsupported kindName => .error (.unsupportedExpr kindName)

/-- Left-to-right evaluation of the argument list of a call. -/
def safeEvalArgs (ext : ExternalMath) : List PyExpr → Except CalcErr (List PyVal)
  | [] => .ok []
  | a :: rest => do
      let v ← safeEval ext a
      let vs ← safeEvalArgs ext rest
      .ok (v :: vs)

end

/-- The error text `str(e)` the envelope carries for each exception. -/
def errText : CalcErr → String
  | .divByZero => "division by zero"
  | .unsupportedOperator s => "Unsupported operator: " ++ s
  | .unsupportedFunction s => "Unsupported function: " ++ s
  | .unsupportedName s => "Unsupported name: " ++ s
  | .unsupportedExpr s => "Unsupported expression: " ++ s
  | .typeError s => s
  | .externalError s => s

/-- The structured envelope the tool returns, modelling the JSON object of
the source: `status` is `success` with the result, or `error` with a
message. -/
inductive CalcResult where
  | success (result : PyVal)
  | error (message : String)
deriving DecidableEq

/-- `calculator` on a parsed expression: evaluate under `_safe_eval`,
catching `ZeroDivisionError` into a `"Division by zero"` envelope and any
other exception into an `"Evaluation failed: ..."` envelope. -/
def calculator (ext : ExternalMath) (parsed : PyExpr) : CalcResult :=
  match safeEval ext parsed with
  | .ok v => .success v
  | .error .divByZero => .error "Division by zero"
  | .error e => .error ("Evaluation failed: " ++ errText e)

/-- C8: whatever the external function semantics, the calculator always
returns a success or an error envelope and never raises; the transcribed
parse of `"25 * 4 + 10"` evaluates to 110; the transcribed parse of
`"__import__('os')"` is rejected with a structured error before its
argument is looked at, because the allow-list check precedes argument
evaluation; and division by zero produces the `"Division by zero"` error
envelope for every numerator. -/
theorem calculator_envelope :
    (∀ (ext : ExternalMath) (parsed : PyExpr),
        (∃ v, calculator ext parsed = .success v)
        ∨ (∃ msg, calculator ext parsed = .error msg))
    ∧ (∀ ext : ExternalMath,
        calculator ext (.binop .add (.binop .mult (.num 25) (.num 4)) (.num 10))
          = .success (.num 110))
    ∧ (∀ ext : ExternalMath,
        calculator ext (.call (.name "__import__") [.unsupported "Constant"])
          = .error "Evaluation failed: Unsupported function: __import__")
    ∧ (∀ (ext : ExternalMath) (a : ℚ),
        calculator ext (.binop .div (.num a) (.num 0))
          = .error "Division by zero") := by
  refine ⟨?_, ?_, ?_, ?_⟩
  · intro ext parsed
    cases h : safeEval ext parsed with
    | ok v => exact Or.inl ⟨v, by simp [calculator, h]⟩
    | error e =>
        refine Or.inr ?_
        cases e with
        | divByZero => exact ⟨"Division by zero", by simp [calculator, h]⟩
        | unsupportedOperator s =>
            exact ⟨"Evaluation failed: " ++ errText (.unsupportedOperator s),
              by simp [calculator, h]⟩
        | unsupportedFunction s =>
            exact ⟨"Evaluation failed: " ++ errText (.unsupportedFunction s),
              by simp [calculator, h]⟩
        | unsupportedName s =>
            exact ⟨"Evaluation failed: " ++ errText (.unsupportedName s),
              by simp [calculator, h]⟩
        | unsupportedExpr s =>
            exact ⟨"Evaluation failed: " ++ errText (.unsupportedExpr s),
              by simp [calculator, h]⟩
        | typeError s =>
            exact ⟨"Evaluation failed: " ++ errText (.typeError s),
              by simp [calculator, h]⟩
        | externalError s =>
            exact ⟨"Evaluation failed: " ++ errText (.externalError s),
              by simp [calculator, h]⟩
  · intro ext
    have h110 : (25 : ℚ) * 4 + 10 = 110 := by norm_num
    calc calculator ext
          (.binop .add (.binop .mult (.num 25) (.num 4)) (.num 10))
        = CalcResult.success (.num ((25 : ℚ) * 4 + 10)) := rfl
      _ = CalcResult.success (.num 110) := by rw [h110]
  · intro ext
    rfl
  · intro ext a
    rfl

/-! ## The research streaming loop (`ResearchTeam.research`)

The loop body of `async for message in stream` (lines 212 to 241 of
`research_team.py`) appends every streamed item to the returned `messages`
list; items carrying both a `source` and a `content` attribute are also
appended to the working `conversation_history` and their content tokens
added to `output_tokens`; afterwards, whenever the working history holds
more than 10 entries, it is truncated to the 4000-token budget with
`keep_system=True`. The stream itself is produced by the external autogen
team and enters as a list of items. -/

/-- One item of the run stream: an agent message carrying `source` and
`content`, or any other streamed object (such as the final task result),
which fails the `hasattr` checks. -/
inductive StreamItem where
  | agentMsg (source content : String)
  | control (tag : String)
deriving DecidableEq

/-- The loop state of `ResearchTeam.research`: the returned message list,
the working conversation history, the accumulated output token count, the
1-based indices of the loop iterations that applied truncation, and the
number of items consumed so far. -/
structure RunState where
  messages : List StreamItem
  conversation_history : List ChatMessage
  output_tokens : Nat
  truncationSteps : List Nat
  step : Nat
deriving DecidableEq

/-- The append phase of one loop iteration: every item goes to `messages`;
an agent message also extends the working history and the output token
count. -/
def appendItem (count_tokens : String → Nat) (st : RunState)
    (item : StreamItem) : RunState :=
  match item with
  | .agentMsg source content =>
      { st with
        messages := st.messages ++ [item]
        step := st.step + 1
        conversation_history := st.conversation_history ++ [⟨source, content⟩]
        output_tokens := st.output_tokens + count_tokens content }
  | .control _ =>
      { st with
        messages := st.messages ++ [item]
        step := st.step + 1 }

/-- One full loop iteration: append, then truncate the working history to
the 4000-token budget whenever it holds more than 10 messages; the Bool
records whether this iteration truncated. -/
def processItem (count_tokens : String → Nat) (st : RunState)
    (item : StreamItem) : RunState × Bool :=
  let st1 := appendItem count_tokens st item
  if 10 < st1.conversation_history.length then
    ({ st1 with
        conversation_history :=
          truncate_conversation_history count_tokens
            st1.conversation_history 4000 true
        truncationSteps := st1.truncationSteps ++ [st1.step] }, true)
  else (st1, false)

/-- The loop state before any item is consumed. -/
def initialRunState : RunState := ⟨[], [], 0, [], 0⟩

/-- The whole streaming loop over a finite stream. -/
def runStream (count_tokens : String → Nat) (stream : List StreamItem) :
    RunState :=
  stream.foldl (fun st item => (processItem count_tokens st item).1)
    initialRunState

/-- The `total_tokens` entry of `TokenCounter.get_token_stats`: the sum of
the per-message content token counts of a conversation (its `by_role`,
`message_count` and average entries are not needed by any claim and are
omitted). -/
def get_token_stats_total (count_tokens : String → Nat)
    (messages : List ChatMessage) : Nat :=
  (messages.map (fun m => count_tokens m.content)).sum

/-- The three token counters of the final `token_stats` dictionary
(`estimated_cost` omitted). -/
structure FinalTokenStats where
  input_tokens : Nat
  output_tokens : Nat
  total_tokens : Nat
deriving DecidableEq

/-- Lines 243 to 255 of `research_team.py`: after the stream ends,
`input_tokens` becomes the token count of the task text and line 246 sets
`total_tokens = input_tokens + output_tokens`; but line 255 then runs
`token_stats.update(self.token_counter.get_token_stats(conversation_history))`,
and because `get_token_stats` also returns a `total_tokens` key, the
update overwrites the just-computed sum with the content-token total of
the (possibly truncated) working history. The final `total_tokens` is
therefore the `get_token_stats` value. -/
def finalTokenStats (count_tokens : String → Nat) (task : String)
    (stream : List StreamItem) : FinalTokenStats :=
  let st := runStream count_tokens stream
  { input_tokens := count_tokens task
    output_tokens := st.output_tokens
    total_tokens := get_token_stats_total count_tokens st.conversation_history }

/-- C1 (failing input): counting tokens by characters, a run with task
`"ab"` and one streamed researcher message `"cd"` ends with
`input_tokens = 2` and `output_tokens = 2`, yet the returned
`total_tokens` is 2, not 4: the `update` on line 255 has overwritten the
`input + output` sum computed on line 246 with the history total. -/
theorem total_tokens_overwritten_bug :
    finalTokenStats String.length "ab" [.agentMsg "researcher" "cd"]
      = ⟨2, 2, 2⟩ ∧
    (finalTokenStats String.length "ab" [.agentMsg "researcher" "cd"]).total_tokens
      ≠ (finalTokenStats String.length "ab"
          [.agentMsg "researcher" "cd"]).input_tokens
        + (finalTokenStats String.length "ab"
            [.agentMsg "researcher" "cd"]).output_tokens := by
  decide

/-- One loop iteration extends the returned message list with exactly the
item just consumed, truncation or not. -/
theorem processItem_messages (count_tokens : String → Nat) (st : RunState)
    (item : StreamItem) :
    ((processItem count_tokens st item).1).messages = st.messages ++ [item] := by
  unfold processItem
  cases item with
  | agentMsg source content =>
      dsimp only [appendItem]
      split <;> rfl
  | control tag =>
      dsimp only [appendItem]
      split <;> rfl

/-- Folding the loop over a stream appends the whole stream to the message
list, whatever the starting state. -/
theorem runStream_messages_aux (count_tokens : String → Nat) :
    ∀ (stream : List StreamItem) (st : RunState),
      (stream.foldl (fun st item => (processItem count_tokens st item).1)
        st).messages = st.messages ++ stream
  | [], st => by simp
  | item :: rest, st => by
      rw [List.foldl_cons, runStream_messages_aux count_tokens rest,
        processItem_messages]
      simp

/-- C7 (amended): the returned message list is never truncated — it is
exactly the streamed items in emission order — and an iteration truncates
the working history precisely when, after the current item is appended,
that history holds more than 10 messages; truncation is therefore tied to
the working-history size, not to a fixed every-10-messages cadence. -/
theorem stream_loop_returns_all_messages (count_tokens : String → Nat) :
    (∀ stream : List StreamItem,
      (runStream count_tokens stream).messages = stream)
    ∧ (∀ (st : RunState) (item : StreamItem),
        (processItem count_tokens st item).2 = true ↔
          10 < (appendItem count_tokens st item).conversation_history.length) := by
  constructor
  · intro stream
    unfold runStream
    rw [runStream_messages_aux]
    rfl
  · intro st item
    unfold processItem
    dsimp only
    split
    next h => simp [h]
    next h => simp [h]

/-- C7 (counterexample to the stated cadence): streaming 13 small agent
messages under per-content token count 1 makes the loop truncate at the
consecutive iterations 11, 12 and 13 — in particular at step 11, which is
not a multiple of 10 — refuting the reading that truncation happens every
10 messages. -/
theorem truncation_cadence_counterexample :
    (runStream (fun _ => 1)
        (List.replicate 13 (.agentMsg "researcher" "x"))).truncationSteps
      = [11, 12, 13] ∧
    ¬ (∀ s ∈ (runStream (fun _ => 1)
        (List.replicate 13 (.agentMsg "researcher" "x"))).truncationSteps,
        s % 10 = 0) := by
  decide

/-! ## Termination policy (spec-modelled)

The termination conditions and the turn loop that evaluates them live in
the external autogen library; `research_team.py` line 110 only combines
`TextMentionTermination("TERMINATE") | MaxMessageTermination(max_rounds)`.
The semantics below is modelled from the spec: `TextMention(keyword)`
fires when the most recent message content contains the keyword,
case-sensitive; `MaxMessages(limit)` fires once the transcript length
reaches the limit; the `|` combination fires when either does, and the
conversation halts the instant the combined condition fires, checked
before each next message is emitted. -/

/-- Modelled from the spec: the two termination condition variants of the
external autogen library and their OR combination. -/
inductive TermCond where
  | textMention (keyword : String)
  | maxMessages (limit : Nat)
  | disj (a b : TermCond)

/-- Modelled from the spec: whether a condition fires on a transcript —
keyword containment in the most recent message for `textMention`,
transcript length reaching the limit for `maxMessages`, OR for `disj`. -/
def condFires (transcript : List ChatMessage) : TermCond → Bool
  | .textMention keyword =>
      match transcript.getLast? with
      | some m => strContains m.content keyword
      | none => false
  | .maxMessages limit => decide (limit ≤ transcript.length)
  | .disj a b => condFires transcript a || condFires transcript b

/-- Modelled from the spec: the turn loop. Before each candidate message
is emitted the condition is evaluated on the transcript so far; the run
returns the messages emitted before the condition first fired, in order. -/
def runWithTermination (cond : TermCond) :
    List ChatMessage → List ChatMessage → List ChatMessage
  | _, [] => []
  | transcript, m :: rest =>
      if condFires transcript cond then []
      else m :: runWithTermination cond (transcript ++ [m]) rest

/-- The combined condition of `ResearchTeam.__init__` line 110. -/
def researchTermination (max_rounds : Nat) : TermCond :=
  .disj (.textMention "TERMINATE") (.maxMessages max_rounds)

/-- At most `max_rounds - transcript.length` further messages are emitted
under the combined research termination condition. -/
theorem runWithTermination_length_le (kw : String) (n : Nat) :
    ∀ (produced transcript : List ChatMessage),
      (runWithTermination (.disj (.textMention kw) (.maxMessages n))
        transcript produced).length ≤ n - transcript.length
  | [], t => by simp [runWithTermination]
  | m :: rest, t => by
      by_cases h :
        condFires t (.disj (.textMention kw) (.maxMessages n)) = true
      · simp [runWithTermination, h]
      · have h2 : condFires t (.maxMessages n) = false := by
          cases hb : condFires t (.maxMessages n) with
          | false => rfl
          | true =>
              have hle : n ≤ t.length := by simpa [condFires] using hb
              exact absurd (by simp [condFires]; exact Or.inr hle) h
        have hlen : t.length < n := by simpa [condFires] using h2
        have hrec := runWithTermination_length_le kw n rest (t ++ [m])
        simp only [List.length_append, List.length_cons, List.length_nil] at hrec
        simp only [runWithTermination, if_neg h, List.length_cons]
        omega

/-- Every element of the run result that is followed by another element
passed the termination check made right after it was appended: the
condition evaluated to false on the transcript ending in it. -/
theorem runWithTermination_no_fire_before_last (cond : TermCond) :
    ∀ (produced transcript xs ys : List ChatMessage) (m : ChatMessage),
      runWithTermination cond transcript produced = xs ++ m :: ys →
      ys ≠ [] →
      condFires (transcript ++ xs ++ [m]) cond = false
  | [], t, xs, ys, m => by
      intro h _
      simp [runWithTermination] at h
  | p :: rest, t, xs, ys, m => by
      intro h hys
      by_cases hf : condFires t cond = true
      · rw [runWithTermination, if_pos hf] at h
        simp at h
      · rw [runWithTermination, if_neg hf] at h
        cases xs with
        | nil =>
            rw [List.nil_append] at h
            obtain ⟨hpm, hrec⟩ := List.cons_eq_cons.mp h
            subst hpm
            cases rest with
            | nil =>
                rw [runWithTermination] at hrec
                exact absurd hrec.symm hys
            | cons q rest' =>
                rw [runWithTermination] at hrec
                by_cases hf2 : condFires (t ++ [p]) cond = true
                · rw [if_pos hf2] at hrec
                  exact absurd hrec.symm hys
                · simpa using hf2
        | cons x xs' =>
            rw [List.cons_append] at h
            obtain ⟨hpx, hrec⟩ := List.cons_eq_cons.mp h
            subst hpx
            have ih :=
              runWithTermination_no_fire_before_last cond rest
                (t ++ [p]) xs' ys m hrec hys
            simpa [List.append_assoc] using ih

/-- When every message of `xs` lacks the keyword, the next produced
message `m` contains it, and the transcript is short enough that the
message cap never fires first, the run emits exactly `xs` followed by `m`
and nothing after it. -/
theorem runWithTermination_stops_at_token (kw : String) (n : Nat) :
    ∀ (xs t : List ChatMessage) (m : ChatMessage) (ys : List ChatMessage),
      (∀ x ∈ xs, strContains x.content kw = false) →
      strContains m.content kw = true →
      condFires t (.textMention kw) = false →
      t.length + xs.length < n →
      runWithTermination (.disj (.textMention kw) (.maxMessages n)) t
        (xs ++ m :: ys) = xs ++ [m]
  | [], t, m, ys => by
      intro _ hm ht hlen
      have hmax : condFires t (.maxMessages n) = false := by
        simp [condFires]
        omega
      have hfires :
          ¬ condFires t (.disj (.textMention kw) (.maxMessages n)) = true := by
        show ¬ (condFires t (.textMention kw)
          || condFires t (.maxMessages n)) = true
        rw [ht, hmax]
        simp
      rw [List.nil_append, runWithTermination, if_neg hfires]
      cases ys with
      | nil => rfl
      | cons y ys' =>
          have hf2 : condFires (t ++ [m])
              (TermCond.disj (.textMention kw) (.maxMessages n)) = true := by
            simp [condFires, List.getLast?_concat, hm]
          rw [runWithTermination, if_pos hf2]
          rfl
  | x :: xs', t, m, ys => by
      intro hxs hm ht hlen
      have hmax : condFires t (.maxMessages n) = false := by
        simp [condFires]
        omega
      have hfires :
          ¬ condFires t (.disj (.textMention kw) (.maxMessages n)) = true := by
        show ¬ (condFires t (.textMention kw)
          || condFires t (.maxMessages n)) = true
        rw [ht, hmax]
        simp
      rw [List.cons_append, runWithTermination, if_neg hfires, List.cons_append]
      congr 1
      refine runWithTermination_stops_at_token kw n xs' (t ++ [x]) m ys
        (fun z hz => hxs z (List.mem_cons_of_mem x hz)) hm ?_ ?_
      · simp [condFires, List.getLast?_concat,
          hxs x (List.mem_cons_self x xs')]
      · simp only [List.length_append, List.length_cons, List.length_nil]
        simp only [List.length_cons] at hlen
        omega

/-- C6: under the condition built on line 110 — text mention of
`"TERMINATE"` OR a message cap of `max_rounds` — a run never emits more
than `max_rounds` messages; any emitted message followed by a later one
does not contain `"TERMINATE"`; and when the produced sequence reaches a
first message containing `"TERMINATE"` before the cap, the run returns
exactly the messages up to and including it and drops everything after. -/
theorem run_termination_policy :
    (∀ (max_rounds : Nat) (produced : List ChatMessage),
        (runWithTermination (researchTermination max_rounds) [] produced).length
          ≤ max_rounds)
    ∧ (∀ (max_rounds : Nat) (produced xs ys : List ChatMessage) (m : ChatMessage),
        runWithTermination (researchTermination max_rounds) [] produced
          = xs ++ m :: ys →
        ys ≠ [] →
        strContains m.content "TERMINATE" = false)
    ∧ (∀ (max_rounds : Nat) (xs ys : List ChatMessage) (m : ChatMessage),
        (∀ x ∈ xs, strContains x.content "TERMINATE" = false) →
        strContains m.content "TERMINATE" = true →
        xs.length < max_rounds →
        runWithTermination (researchTermination max_rounds) [] (xs ++ m :: ys)
          = xs ++ [m]) := by
  refine ⟨?_, ?_, ?_⟩
  · intro max_rounds produced
    simpa [researchTermination] using
      runWithTermination_length_le "TERMINATE" max_rounds produced []
  · intro max_rounds produced xs ys m h hys
    have hinv := runWithTermination_no_fire_before_last
      (researchTermination max_rounds) produced [] xs ys m h hys
    simp only [List.nil_append, researchTermination, condFires,
      List.getLast?_concat, Bool.or_eq_false_iff] at hinv
    exact hinv.1
  · intro max_rounds xs ys m hxs hm hlen
    have := runWithTermination_stops_at_token "TERMINATE" max_rounds xs [] m ys
      hxs hm (by simp [condFires]) (by simpa using hlen)
    simpa [researchTermination] using this

end AutogenResearch
